import Mathlib

set_option maxHeartbeats 1000000

/-!
Verification of the hazard-response normalisation/escalation pipeline and the
place-distance enrichment pipeline of the buddy-paws cloud-function backend.

The definitions below are shallow embeddings of the repository's code:
the Go function `safeguardSeverity` and the structured `DetectHazards`
response assembly, the TypeScript `HazardResponseProcessor.processHazardAnalysis`
free-text parser, the Go `processBase64Image` / TypeScript `validateImageData`
image validators, and the TypeScript `SearchPlacesService.searchPlaces`
enrichment pipeline.
-/

/-- ASCII upper-casing, the case mapping exercised by the code's comparisons:
JavaScript case-insensitive regex matching (no `u` flag) never identifies a
non-ASCII character with an ASCII pattern character, and the Go
`strings.ToUpper` / JS `toUpperCase` calls in the pipeline only ever feed
their result into comparisons against ASCII literals, so the ASCII table is
the behaviour in play.  Non-ASCII characters are left unchanged. -/
def upChar (c : Char) : Char :=
  if c = 'a' then 'A' else if c = 'b' then 'B' else if c = 'c' then 'C'
  else if c = 'd' then 'D' else if c = 'e' then 'E' else if c = 'f' then 'F'
  else if c = 'g' then 'G' else if c = 'h' then 'H' else if c = 'i' then 'I'
  else if c = 'j' then 'J' else if c = 'k' then 'K' else if c = 'l' then 'L'
  else if c = 'm' then 'M' else if c = 'n' then 'N' else if c = 'o' then 'O'
  else if c = 'p' then 'P' else if c = 'q' then 'Q' else if c = 'r' then 'R'
  else if c = 's' then 'S' else if c = 't' then 'T' else if c = 'u' then 'U'
  else if c = 'v' then 'V' else if c = 'w' then 'W' else if c = 'x' then 'X'
  else if c = 'y' then 'Y' else if c = 'z' then 'Z' else c

/-- Upper-cased character data of a string (`strings.ToUpper` in
`safeguardSeverity`). -/
def upperData (s : String) : List Char := s.data.map upChar

/-- One hazard finding, Go struct `Hazard` in the structured `DetectHazards`
cloud function. -/
structure Hazard where
  position : String
  hazardType : String          -- JSON tag "type"
  severity : String
  description : String
deriving DecidableEq, Repr

/-- Go struct `HazardDetection`: the structured model response. -/
structure HazardDetection where
  hazards : List Hazard
  severity : String
  safeDirection : String       -- JSON tag "safe_direction"
deriving DecidableEq, Repr

/-- Response shape shared by both pipelines (Go `HazardDetectionResponse`,
TS `HazardDetectionResponse`). -/
structure HazardDetectionResponse where
  speechText : String
  severity : String
deriving DecidableEq, Repr

/-- Go `safeguardSeverity` from the structured `DetectHazards` function,
translated clause by clause. -/
def safeguardSeverity (detection : HazardDetection) : String :=
  -- If original severity is already HIGH, return HIGH
  if detection.severity = "HIGH" then "HIGH"
  else if detection.severity = "MEDIUM" then "MEDIUM"
  -- Check for STOP - always escalates to HIGH
  else if List.isPrefixOf "STOP".data (upperData detection.safeDirection) then "HIGH"
  -- Check for CAUTION or SLOW - escalates to MEDIUM
  else if List.isPrefixOf "CAUTION".data (upperData detection.safeDirection)
          || List.isPrefixOf "SLOW".data (upperData detection.safeDirection) then "MEDIUM"
  else "LOW"

/-- The Severity Escalation Engine exactly as the specification words it:
HIGH if the declared severity is HIGH, else MEDIUM if it is MEDIUM, else
inspect the upper-cased text — HIGH on a "STOP" prefix, MEDIUM on a
"CAUTION" or "SLOW" prefix, LOW otherwise; first match wins, top to bottom. -/
def escalationSpec (declared : String) (text : String) : String :=
  if declared = "HIGH" then "HIGH"
  else if declared = "MEDIUM" then "MEDIUM"
  else if List.isPrefixOf "STOP".data (upperData text) then "HIGH"
  else if List.isPrefixOf "CAUTION".data (upperData text)
          || List.isPrefixOf "SLOW".data (upperData text) then "MEDIUM"
  else "LOW"

/-- Assembly of the structured-path response in Go `DetectHazards`:
`SpeechText: detection.SafeDirection, Severity: safeguardSeverity(&detection)`. -/
def structuredResponse (detection : HazardDetection) : HazardDetectionResponse :=
  ⟨detection.safeDirection, safeguardSeverity detection⟩

/-- Case-insensitive "begins with" on strings, as Go performs it:
upper-case the text, then check the ASCII-literal pattern as a plain
character-list prefix. -/
def ciStartsWith (pat s : String) : Bool :=
  List.isPrefixOf pat.data (upperData s)

/-! ### The free-text parser `HazardResponseProcessor.processHazardAnalysis`

The TypeScript parser matches `/(HIGH|MED|LOW)[.\s]*$/i` against the model
output, takes the upper-cased captured token as the severity (defaulting to
`MED` when there is no match), deletes the match, trims the remainder and
collapses internal whitespace runs (`.replace(/\s+/g,' ')`).  The regex is
embedded below as an executable leftmost-match scanner. -/

/-- JavaScript regex/trim whitespace class `\s`. -/
def isJsSpace (c : Char) : Bool :=
  c = ' ' || c = '\t' || c = '\n' || c = '\r' || c = '\u000B' || c = '\u000C'
  || c = '\u00A0' || c = '\u1680'
  || c = '\u2000' || c = '\u2001' || c = '\u2002' || c = '\u2003'
  || c = '\u2004' || c = '\u2005' || c = '\u2006' || c = '\u2007'
  || c = '\u2008' || c = '\u2009' || c = '\u200A'
  || c = '\u2028' || c = '\u2029' || c = '\u202F' || c = '\u205F'
  || c = '\u3000' || c = '\uFEFF'

/-- Character class `[.\s]` of the severity-token regex. -/
def dotOrJsSpace (c : Char) : Bool :=
  c = '.' || isJsSpace c

/-- Case-insensitive match of the fixed pattern `pat` (given upper-cased)
against the head of `cs`; returns the consumed characters and the remainder. -/
def ciSplit : List Char → List Char → Option (List Char × List Char)
  | [], rest => some ([], rest)
  | _ :: _, [] => none
  | p :: ps, c :: cs =>
    if upChar c = p then
      match ciSplit ps cs with
      | some (tok, rest) => some (c :: tok, rest)
      | none => none
    else none

/-- Does the regex `(HIGH|MED|LOW)[.\s]*$` match at the head of `cs`
(with `$` the end of `cs`)?  Alternatives are tried in the regex's order;
the tail check demands that everything after the token is `[.\s]`, exactly
as the anchored greedy `[.\s]*$` behaves.  Returns the captured token. -/
def sevMatchHere (cs : List Char) : Option (List Char) :=
  match ciSplit "HIGH".data cs with
  | some (tok, rest) =>
    if rest.all dotOrJsSpace then some tok
    else none
  | none =>
    match ciSplit "MED".data cs with
    | some (tok, rest) =>
      if rest.all dotOrJsSpace then some tok
      else none
    | none =>
      match ciSplit "LOW".data cs with
      | some (tok, rest) =>
        if rest.all dotOrJsSpace then some tok
        else none
      | none => none

/-- Leftmost match of `(HIGH|MED|LOW)[.\s]*$`, as both `String.match` and the
non-global `String.replace` locate it: the scan tries each start position
left to right.  Returns the text before the match and the captured token
(the match itself extends from the token to the end of the string). -/
def findSevMatch : List Char → Option (List Char × List Char)
  | [] => none
  | c :: rest =>
    match sevMatchHere (c :: rest) with
    | some tok => some ([], tok)
    | none =>
      match findSevMatch rest with
      | some (pre, tok) => some (c :: pre, tok)
      | none => none

/-- JavaScript `String.prototype.trim`: strip `\s` characters from both ends. -/
def trimChars (cs : List Char) : List Char :=
  ((cs.dropWhile isJsSpace).reverse.dropWhile isJsSpace).reverse

/-- JavaScript `.replace(/\s+/g, ' ')`: every maximal whitespace run becomes a
single space.  The flag records whether the previous character was part of a
run already replaced. -/
def collapseWs : Bool → List Char → List Char
  | _, [] => []
  | inWs, c :: rest =>
    if isJsSpace c then
      if inWs then collapseWs true rest else ' ' :: collapseWs true rest
    else c :: collapseWs false rest

/-- The speech text the TS parser derives from the characters left after
deleting the regex match: `.trim().replace(/\s+/g, ' ')`. -/
def cleanSpeech (cs : List Char) : String :=
  String.mk (collapseWs false (trimChars cs))

/-- The characters `analysis.replace(regex, '')` leaves: everything before
the leftmost match, or the whole string when the regex does not match. -/
def strippedChars (analysis : String) : List Char :=
  match findSevMatch analysis.data with
  | some (pre, _) => pre
  | none => analysis.data

/-- The severity the TS parser reads off: the upper-cased captured token, or
the `MED` default when the regex does not match. -/
def rawSeverity (analysis : String) : String :=
  match findSevMatch analysis.data with
  | some (_, tok) => String.mk (tok.map upChar)
  | none => "MED"

/-- TypeScript `HazardResponseProcessor.processHazardAnalysis`.  The
`try/catch` around the body is dead code (`match`/`replace` on strings do not
throw), so only the normal path is modelled. -/
def processHazardAnalysis (analysis : String) : HazardDetectionResponse :=
  if cleanSpeech (strippedChars analysis) = "" then
    ⟨"Unable to analyze image properly", "MED"⟩
  else
    ⟨cleanSpeech (strippedChars analysis), rawSeverity analysis⟩

/-! ### The place search / distance enrichment pipeline
`SearchPlacesService.searchPlaces`: after the text-search call returns its
candidate list, the code truncates to at most 4 places, issues one batched
distance-matrix request whose destinations are the truncated candidates'
coordinates in order, and merges `rows[0].elements[index]` onto the
candidate at `index`.  The two external HTTP calls are modelled by the
`gateway` argument (destinations to distance-matrix rows) and by passing the
place response in directly; the second component of the result records the
destination list of every distance-matrix call the code issues. -/

/-- Geographic point (`place.location`); the pipeline only copies
coordinates, never computes with them, so an integral carrier is faithful. -/
structure Location where
  latitude : Int
  longitude : Int
deriving DecidableEq, Repr

/-- One candidate from the places API (fields the code reads). -/
structure Place where
  displayName : String
  formattedAddress : String
  location : Location
deriving DecidableEq, Repr

/-- One distance-matrix element; `distance` and `duration` are opaque
payloads the code copies verbatim, modelled by numbers. -/
structure DistElem where
  distance : Nat
  duration : Nat
deriving DecidableEq, Repr

/-- A candidate after enrichment: `{...place, distance, duration}`. -/
structure EnrichedPlace where
  displayName : String
  formattedAddress : String
  location : Location
  distance : Nat
  duration : Nat
deriving DecidableEq, Repr

/-- The spread-plus-fields object literal of the merge step. -/
def enrich (p : Place) (e : DistElem) : EnrichedPlace :=
  ⟨p.displayName, p.formattedAddress, p.location, e.distance, e.duration⟩

/-- `if (places.length > 4) places = places.slice(0, 4)`. -/
def truncatePlaces (ps : List Place) : List Place :=
  if ps.length > 4 then ps.take 4 else ps

/-- `places.map((place, index) => ({...place, distance:
rows[0].elements[index].distance, duration: ...duration}))`.  The
`rows[0].elements[index]` lookups happen inside the callback, so an empty
candidate list touches nothing; a missing row or element raises a
`TypeError` in JavaScript, modelled as `none`. -/
def mergeByIndex (rows : List (List DistElem)) : List Place → Nat → Option (List EnrichedPlace)
  | [], _ => some []
  | p :: ps, i =>
    match rows.head? >>= fun elems => elems[i]? with
    | none => none
    | some e => (mergeByIndex rows ps (i + 1)).map (enrich p e :: ·)

/-- The body of `searchPlaces` after the text-search response arrives.
The first component is the merged result (`none` = thrown `TypeError`);
the second component lists the destinations of each distance-matrix call
made — the code always makes exactly one. -/
def searchPlacesPipeline (placesResp : List Place)
    (gateway : List Location → List (List DistElem)) :
    Option (List EnrichedPlace) × List (List Location) :=
  let places := truncatePlaces placesResp
  let destinations := places.map (·.location)
  let rows := gateway destinations
  (mergeByIndex rows places 0, [destinations])

/-! ### The image payload validators
TypeScript `HazardDetectionService.validateImageData` rejects the empty
string, then rejects any input whose Node `Buffer.from(data, 'base64')`
decoding exceeds 4 MiB.  Node's lenient base64 decoder skips characters
outside the base64 alphabet and yields `⌊3n/4⌋` bytes for `n` alphabet
characters.  Go `processBase64Image` parses an optional
`data:image/<fmt>;base64,` prefix (defaulting the format to `jpeg`) and then
decodes with `base64.StdEncoding`, which ignores `\r`/`\n` and demands
padded four-character groups. -/

deriving instance DecidableEq for Except

/-- Spec §7 error taxonomy for the image validators. -/
inductive ImgError where
  | emptyImage
  | imageTooLarge
  | invalidFormat
  | invalidEncoding
deriving DecidableEq, Repr

/-- Value of a standard-base64 alphabet character. -/
def b64Val (c : Char) : Option Nat :=
  if 'A' ≤ c && c ≤ 'Z' then some (c.toNat - 65)
  else if 'a' ≤ c && c ≤ 'z' then some (c.toNat - 97 + 26)
  else if '0' ≤ c && c ≤ '9' then some (c.toNat - 48 + 52)
  else if c = '+' then some 62
  else if c = '/' then some 63
  else none

/-- Byte count of Node's lenient base64 decoding
(`Buffer.from(s, 'base64').length`). -/
def nodeB64Len (s : String) : Nat :=
  ((s.data.filter fun c => (b64Val c).isSome).length * 3) / 4

/-- `MAX_IMAGE_SIZE = 4 * 1024 * 1024`. -/
def maxImageSize : Nat := 4 * 1024 * 1024

/-- TypeScript `HazardDetectionService.validateImageData`. -/
def validateImageData (imageData : String) : Except ImgError Unit :=
  if imageData = "" then .error .emptyImage
  else if nodeB64Len imageData > maxImageSize then .error .imageTooLarge
  else .ok ()

/-- Strict decoding of padded base64 quads, Go `base64.StdEncoding`
semantics: four characters at a time, `=` padding only in the final quad,
leftover characters are an error. -/
def b64Quads : List Char → Option (List Nat)
  | [] => some []
  | a :: b :: c :: d :: rest =>
    match b64Val a, b64Val b with
    | some va, some vb =>
      if c = '=' then
        if d = '=' && rest.isEmpty then some [va * 4 + vb / 16] else none
      else
        match b64Val c with
        | some vc =>
          if d = '=' then
            if rest.isEmpty then some [va * 4 + vb / 16, (vb % 16) * 16 + vc / 4]
            else none
          else
            match b64Val d with
            | some vd =>
              (b64Quads rest).map
                ([va * 4 + vb / 16, (vb % 16) * 16 + vc / 4, (vc % 4) * 64 + vd] ++ ·)
            | none => none
        | none => none
    | _, _ => none
  | _ => none

/-- Go `base64.StdEncoding.DecodeString`: `\r` and `\n` are ignored, then
the padded quads are decoded strictly. -/
def goB64Decode (cs : List Char) : Option (List Nat) :=
  b64Quads (cs.filter fun c => !(c = '\r' || c = '\n'))

/-- Go `strings.Split` on a single separator character. -/
def splitOnChar (sep : Char) : List Char → List (List Char)
  | [] => [[]]
  | c :: rest =>
    if c = sep then [] :: splitOnChar sep rest
    else
      match splitOnChar sep rest with
      | h :: t => (c :: h) :: t
      | [] => [[c]]

/-- Go `processBase64Image`: split on `,`; exactly two parts means a data
URI whose metadata must be `data:image/<fmt>;<something>`; otherwise the
whole input is bare base64 with the format defaulted to `jpeg`. -/
def processBase64Image (base64Image : String) : Except ImgError (List Nat × String) :=
  match splitOnChar ',' base64Image.data with
  | [p0, p1] =>
    match splitOnChar ';' p0 with
    | [m0, _m1] =>
      if List.isPrefixOf "data:image/".data m0 then
        match goB64Decode p1 with
        | some bytes => .ok (bytes, String.mk (m0.drop 11))
        | none => .error .invalidEncoding
      else .error .invalidFormat
    | _ => .error .invalidFormat
  | _ =>
    match goB64Decode base64Image.data with
    | some bytes => .ok (bytes, "jpeg")
    | none => .error .invalidEncoding

/-! ### The structured-output JSON stage
Go `DetectHazards` unmarshals the model's text into `HazardDetection` with
`encoding/json`.  A JSON text that fails to parse is modelled as `none`; a
parsed value is modelled by `Json` below, and `unmarshalHD` reproduces
`json.Unmarshal` semantics for this struct: a missing or `null` field leaves
the zero value (empty string / empty slice) without error, a type mismatch
is an error, a non-object non-null top level is an error, and a duplicated
key keeps its last value. -/

/-- JSON values (numbers restricted to integers; the claims never exercise
fractional numbers, which the struct in question has no field for). -/
inductive Json where
  | null : Json
  | bool : Bool → Json
  | num : Int → Json
  | str : String → Json
  | arr : List Json → Json
  | obj : List (String × Json) → Json

/-- Last-wins object field lookup, as `encoding/json` fills duplicate keys.
Go's case-insensitive field-name fallback is not modelled: the claims only
concern exactly-named or absent fields. -/
def lookupLast (flds : List (String × Json)) (k : String) : Option Json :=
  ((flds.filter fun p => p.1 = k).map (·.2)).getLast?

/-- Unmarshal a string-typed struct field: absent or `null` leaves the zero
value `""`; a non-string value is an unmarshalling error. -/
def getStrField (flds : List (String × Json)) (k : String) : Option String :=
  match lookupLast flds k with
  | none => some ""
  | some .null => some ""
  | some (.str s) => some s
  | some _ => none

/-- Unmarshal one element of the `hazards` array. -/
def unmarshalHazard (j : Json) : Option Hazard :=
  match j with
  | .null => some ⟨"", "", "", ""⟩
  | .obj flds =>
    match getStrField flds "position", getStrField flds "type",
          getStrField flds "severity", getStrField flds "description" with
    | some p, some t, some s, some d => some ⟨p, t, s, d⟩
    | _, _, _, _ => none
  | _ => none

/-- Unmarshal the `hazards` field: absent or `null` leaves the nil slice. -/
def unmarshalHazards (j : Option Json) : Option (List Hazard) :=
  match j with
  | none => some []
  | some .null => some []
  | some (.arr js) => js.mapM unmarshalHazard
  | some _ => none

/-- `json.Unmarshal` into the Go struct `HazardDetection`. -/
def unmarshalHD (j : Json) : Option HazardDetection :=
  match j with
  | .null => some ⟨[], "", ""⟩
  | .obj flds =>
    match unmarshalHazards (lookupLast flds "hazards"),
          getStrField flds "severity", getStrField flds "safe_direction" with
    | some hz, some sev, some dir => some ⟨hz, sev, dir⟩
    | _, _, _ => none
  | _ => none

/-- The structured path of Go `DetectHazards` from the model text onward:
`none` input stands for model text that is not valid JSON
(`json.Unmarshal` returns an error, reported as "Error unmarshaling JSON");
otherwise unmarshal, then respond with the safeguarded severity.  `none`
output is the 500 error response, `some` the 200 success response. -/
def detectHazardsStructured (modelOutput : Option Json) : Option HazardDetectionResponse :=
  match modelOutput with
  | none => none
  | some j =>
    match unmarshalHD j with
    | none => none
    | some d => some ⟨d.safeDirection, safeguardSeverity d⟩

/-- A captured token of the severity regex: its upper-cased characters spell
HIGH, MED or LOW. -/
def isSevTok (tok : List Char) : Bool :=
  tok.map upChar = "HIGH".data || tok.map upChar = "MED".data
    || tok.map upChar = "LOW".data

/-- Six concrete candidates, the first two sharing identical coordinates. -/
def sixCandidates : List Place :=
  [⟨"Cafe", "A St", ⟨1, 2⟩⟩, ⟨"Bar", "B St", ⟨1, 2⟩⟩, ⟨"Gym", "C St", ⟨3, 4⟩⟩,
   ⟨"Park", "D St", ⟨5, 6⟩⟩, ⟨"Pool", "E St", ⟨7, 8⟩⟩, ⟨"Zoo", "F St", ⟨9, 10⟩⟩]

/-- A distance gateway answering one row of four elements. -/
def oneRowGateway : List Location → List (List DistElem) :=
  fun _ => [[⟨100, 10⟩, ⟨200, 20⟩, ⟨300, 30⟩, ⟨400, 40⟩]]

/-- The merge of the first four candidates with that row. -/
def enrichedFour : List EnrichedPlace :=
  [⟨"Cafe", "A St", ⟨1, 2⟩, 100, 10⟩, ⟨"Bar", "B St", ⟨1, 2⟩, 200, 20⟩,
   ⟨"Gym", "C St", ⟨3, 4⟩, 300, 30⟩, ⟨"Park", "D St", ⟨5, 6⟩, 400, 40⟩]

/-! ### Claims about the Severity Escalation Engine -/

/-- Claim C2: for every declared severity and safeDirection text (the
findings list being irrelevant), the escalation engine returns HIGH for a
declared HIGH, MEDIUM for a declared MEDIUM, and otherwise inspects the
upper-cased text: HIGH on a "STOP" prefix, MEDIUM on a "CAUTION" or "SLOW"
prefix, LOW otherwise — first match wins, evaluated top to bottom. -/
theorem safeguard_matches_escalation_rules :
    ∀ (hz : List Hazard) (sev dir : String),
      safeguardSeverity ⟨hz, sev, dir⟩ = escalationSpec sev dir := by
  intro hz sev dir
  rfl

/-- Claim C3: the escalation engine is deterministic (equal inputs give
equal outputs) and idempotent — feeding its own output back as the declared
severity, with the text unchanged, reproduces the first pass's severity. -/
theorem escalation_deterministic_idempotent :
    ∀ (hz : List Hazard) (sev dir : String),
      safeguardSeverity ⟨hz, sev, dir⟩ = safeguardSeverity ⟨hz, sev, dir⟩ ∧
      safeguardSeverity ⟨hz, safeguardSeverity ⟨hz, sev, dir⟩, dir⟩ =
        safeguardSeverity ⟨hz, sev, dir⟩ := by
  intro hz sev dir
  refine ⟨rfl, ?_⟩
  unfold safeguardSeverity
  split_ifs <;> simp_all

/-- Claim C1 fails on the free-text path: the TypeScript parser never runs
the escalation engine, so a model output carrying a trailing LOW token after
a STOP instruction is returned with severity LOW even though the speech text
begins with "STOP". -/
theorem stop_low_counterexample :
    processHazardAnalysis "STOP. Danger ahead. LOW" = ⟨"STOP. Danger ahead.", "LOW"⟩ ∧
    ciStartsWith "STOP" (processHazardAnalysis "STOP. Danger ahead. LOW").speechText = true ∧
    (processHazardAnalysis "STOP. Danger ahead. LOW").severity = "LOW" := by decide

/-- Claim C1 amended: on the structured-JSON path the invariant holds — the
returned severity is never LOW when the returned speechText begins with
"STOP" (case-insensitive), and is HIGH or MEDIUM when it begins with
"CAUTION" or "SLOW".  (The free-text path does not enforce it.) -/
theorem stop_low_invariant_structured :
    ∀ d : HazardDetection,
      (ciStartsWith "STOP" (structuredResponse d).speechText = true →
        (structuredResponse d).severity ≠ "LOW") ∧
      (ciStartsWith "CAUTION" (structuredResponse d).speechText = true ∨
       ciStartsWith "SLOW" (structuredResponse d).speechText = true →
        (structuredResponse d).severity = "HIGH" ∨
        (structuredResponse d).severity = "MEDIUM") := by
  intro d
  constructor
  · intro hstop
    simp only [structuredResponse, ciStartsWith] at hstop ⊢
    unfold safeguardSeverity
    split_ifs <;> simp_all
  · intro hcs
    simp only [structuredResponse, ciStartsWith] at hcs ⊢
    unfold safeguardSeverity
    split_ifs <;> simp_all

/-- Concrete instance of the structured-path invariant. -/
theorem stop_low_invariant_structured_witness :
    (structuredResponse ⟨[], "LOW", "STOP now"⟩).severity ≠ "LOW" ∧
    ((structuredResponse ⟨[], "", "SLOW down"⟩).severity = "HIGH" ∨
     (structuredResponse ⟨[], "", "SLOW down"⟩).severity = "MEDIUM") :=
  ⟨(stop_low_invariant_structured ⟨[], "LOW", "STOP now"⟩).1 (by decide),
   (stop_low_invariant_structured ⟨[], "", "SLOW down"⟩).2 (Or.inr (by decide))⟩

/-! ### Claims about the enrichment pipeline's zero-candidate case -/

/-- Claim C5 fails: with zero candidates the code still issues the batched
distance request — the call trace holds one call whose destination list is
empty — although the merged result is indeed the empty list. -/
theorem zero_candidates_counterexample :
    (searchPlacesPipeline [] fun _ => []).2 = [[]] ∧
    (searchPlacesPipeline [] fun _ => []).2 ≠ [] ∧
    (searchPlacesPipeline [] fun _ => []).1 = some [] := by decide

/-- Claim C5 amended: when the place search returns zero candidates the
pipeline returns the empty list, but it still issues its single batched
distance request, with an empty destinations list, regardless of the
gateway's behaviour. -/
theorem zero_candidates_amended :
    ∀ gateway : List Location → List (List DistElem),
      searchPlacesPipeline [] gateway = (some [], [[]]) := by
  intro gateway
  rfl

/-! ### Claims about the structured path's error handling -/

/-- Claim C7 fails: `json.Unmarshal` does not reject an object missing the
required fields — an empty JSON object unmarshal succeeds with zero values
and the pipeline produces a 200 success response (severity LOW, empty
speech), not a MalformedModelOutput error. -/
theorem missing_fields_counterexample :
    detectHazardsStructured (some (Json.obj [])) = some ⟨"", "LOW"⟩ := rfl

/-- Claim C7 amended: the structured path fails (reported, not retried) only
when the model output does not parse as JSON; absent `severity` /
`safe_direction` fields are not an error — they unmarshal to empty strings
and the pipeline produces a success response built from the defaulted
record. -/
theorem structured_parse_error_amended :
    detectHazardsStructured none = none ∧
    (∀ j d, unmarshalHD j = some d →
      detectHazardsStructured (some j) = some ⟨d.safeDirection, safeguardSeverity d⟩) ∧
    unmarshalHD (Json.obj []) = some ⟨[], "", ""⟩ := by
  refine ⟨rfl, ?_, rfl⟩
  intro j d h
  simp [detectHazardsStructured, h]

/-- Concrete instance: the empty object produces the defaulted success
response. -/
theorem structured_parse_error_witness :
    detectHazardsStructured (some (Json.obj [])) =
      some ⟨"", safeguardSeverity ⟨[], "", ""⟩⟩ :=
  structured_parse_error_amended.2.1 (Json.obj []) ⟨[], "", ""⟩ rfl

/-! ### Claims about the empty-speech fallback -/

/-- Claim C9 fails on the exact phrase: the fallback text in the code is
"Unable to analyze image properly" (capital U), not the quoted
"unable to analyze image properly". -/
theorem fallback_phrase_counterexample :
    processHazardAnalysis "HIGH" = ⟨"Unable to analyze image properly", "MED"⟩ ∧
    (processHazardAnalysis "HIGH").speechText ≠ "unable to analyze image properly" := by
  decide

/-- Claim C9 amended: if stripping the trailing severity token yields an
empty speech text the parser emits the fixed fallback phrase
"Unable to analyze image properly" with severity MED, and consequently every
result of `processHazardAnalysis` has a non-empty speechText. -/
theorem fallback_phrase_amended :
    (∀ s, cleanSpeech (strippedChars s) = "" →
      processHazardAnalysis s = ⟨"Unable to analyze image properly", "MED"⟩) ∧
    ∀ s, (processHazardAnalysis s).speechText ≠ "" := by
  constructor
  · intro s h
    simp [processHazardAnalysis, h]
  · intro s
    by_cases h : cleanSpeech (strippedChars s) = ""
    · simp [processHazardAnalysis, h]
    · simp [processHazardAnalysis, h]

/-- Concrete instance of the fallback behaviour. -/
theorem fallback_phrase_witness :
    processHazardAnalysis "MED." = ⟨"Unable to analyze image properly", "MED"⟩ ∧
    (processHazardAnalysis "LOW").speechText ≠ "" :=
  ⟨fallback_phrase_amended.1 "MED." (by decide), fallback_phrase_amended.2 "LOW"⟩

/-! ### Correctness of the embedded regex scanner -/

theorem ciSplit_sound : ∀ (pat cs t r : List Char),
    ciSplit pat cs = some (t, r) → cs = t ++ r ∧ t.map upChar = pat := by
  intro pat
  induction pat with
  | nil =>
    intro cs t r h
    simp [ciSplit] at h
    obtain ⟨rfl, rfl⟩ := h
    simp
  | cons p ps ih =>
    intro cs t r h
    cases cs with
    | nil => simp [ciSplit] at h
    | cons c cs' =>
      simp only [ciSplit] at h
      by_cases hc : upChar c = p
      · rw [if_pos hc] at h
        cases hsplit : ciSplit ps cs' with
        | none => rw [hsplit] at h; simp at h
        | some pr =>
          obtain ⟨tok, rest⟩ := pr
          rw [hsplit] at h
          simp at h
          obtain ⟨rfl, rfl⟩ := h
          obtain ⟨h1, h2⟩ := ih cs' tok rest hsplit
          subst h1
          simp [h2, hc]
      · rw [if_neg hc] at h
        simp at h

theorem ciSplit_complete : ∀ (t r : List Char),
    ciSplit (t.map upChar) (t ++ r) = some (t, r) := by
  intro t
  induction t with
  | nil => intro r; simp [ciSplit]
  | cons c t' ih => intro r; simp [ciSplit, ih]

theorem ciSplit_head_ne {p c : Char} (ps cs : List Char) (h : upChar c ≠ p) :
    ciSplit (p :: ps) (c :: cs) = none := by
  simp [ciSplit, h]

theorem sevMatchHere_sound (cs t : List Char) (h : sevMatchHere cs = some t) :
    ∃ r, cs = t ++ r ∧ r.all dotOrJsSpace = true ∧ isSevTok t = true := by
  unfold sevMatchHere at h
  cases h1 : ciSplit "HIGH".data cs with
  | some pr =>
    obtain ⟨tok, rest⟩ := pr
    rw [h1] at h
    by_cases hall : rest.all dotOrJsSpace
    · simp [hall] at h
      subst h
      obtain ⟨he, hm⟩ := ciSplit_sound _ _ _ _ h1
      exact ⟨rest, he, hall, by simp [isSevTok, hm]⟩
    · simp [hall] at h
  | none =>
    rw [h1] at h
    cases h2 : ciSplit "MED".data cs with
    | some pr =>
      obtain ⟨tok, rest⟩ := pr
      rw [h2] at h
      by_cases hall : rest.all dotOrJsSpace
      · simp [hall] at h
        subst h
        obtain ⟨he, hm⟩ := ciSplit_sound _ _ _ _ h2
        exact ⟨rest, he, hall, by simp [isSevTok, hm]⟩
      · simp [hall] at h
    | none =>
      rw [h2] at h
      cases h3 : ciSplit "LOW".data cs with
      | some pr =>
        obtain ⟨tok, rest⟩ := pr
        rw [h3] at h
        by_cases hall : rest.all dotOrJsSpace
        · simp [hall] at h
          subst h
          obtain ⟨he, hm⟩ := ciSplit_sound _ _ _ _ h3
          exact ⟨rest, he, hall, by simp [isSevTok, hm]⟩
        · simp [hall] at h
      | none => rw [h3] at h; simp at h

theorem sevMatchHere_complete (t r : List Char) (htok : isSevTok t = true)
    (hall : r.all dotOrJsSpace = true) : sevMatchHere (t ++ r) = some t := by
  simp only [isSevTok, Bool.or_eq_true, decide_eq_true_eq, or_assoc] at htok
  rcases htok with hm | hm | hm
  · have hhh : "HIGH".data = List.map upChar t := by
      rw [show ("HIGH".data : List Char) = ['H', 'I', 'G', 'H'] from by decide, hm]
    have hc : ciSplit "HIGH".data (t ++ r) = some (t, r) := by
      rw [hhh]; exact ciSplit_complete t r
    unfold sevMatchHere
    rw [hc]
    simp [hall]
  · obtain ⟨c1, t', rfl⟩ : ∃ c1 t', t = c1 :: t' := by
      cases t with
      | nil => simp at hm
      | cons a b => exact ⟨a, b, rfl⟩
    have hmm : "MED".data = List.map upChar (c1 :: t') := by
      rw [show ("MED".data : List Char) = ['M', 'E', 'D'] from by decide, hm]
    have hc1 : upChar c1 = 'M' := by
      have hm2 := hm
      simp at hm2
      exact hm2.1
    have hH : ciSplit "HIGH".data ((c1 :: t') ++ r) = none := by
      rw [show ("HIGH".data : List Char) = 'H' :: "IGH".data from by decide]
      exact ciSplit_head_ne _ _ (by rw [hc1]; decide)
    have hc : ciSplit "MED".data ((c1 :: t') ++ r) = some (c1 :: t', r) := by
      rw [hmm]; exact ciSplit_complete _ r
    unfold sevMatchHere
    rw [hH, hc]
    simp [hall]
  · obtain ⟨c1, t', rfl⟩ : ∃ c1 t', t = c1 :: t' := by
      cases t with
      | nil => simp at hm
      | cons a b => exact ⟨a, b, rfl⟩
    have hll : "LOW".data = List.map upChar (c1 :: t') := by
      rw [show ("LOW".data : List Char) = ['L', 'O', 'W'] from by decide, hm]
    have hc1 : upChar c1 = 'L' := by
      have hm2 := hm
      simp at hm2
      exact hm2.1
    have hH : ciSplit "HIGH".data ((c1 :: t') ++ r) = none := by
      rw [show ("HIGH".data : List Char) = 'H' :: "IGH".data from by decide]
      exact ciSplit_head_ne _ _ (by rw [hc1]; decide)
    have hM : ciSplit "MED".data ((c1 :: t') ++ r) = none := by
      rw [show ("MED".data : List Char) = 'M' :: "ED".data from by decide]
      exact ciSplit_head_ne _ _ (by rw [hc1]; decide)
    have hc : ciSplit "LOW".data ((c1 :: t') ++ r) = some (c1 :: t', r) := by
      rw [hll]; exact ciSplit_complete _ r
    unfold sevMatchHere
    rw [hH, hM, hc]
    simp [hall]

theorem isSevTok_ne_nil {t : List Char} (h : isSevTok t = true) : t ≠ [] := by
  intro he
  rw [he] at h
  exact absurd h (by decide)

theorem isSevTok_length {t : List Char} (h : isSevTok t = true) :
    t.length = 3 ∨ t.length = 4 := by
  simp only [isSevTok, Bool.or_eq_true, decide_eq_true_eq, or_assoc] at h
  rcases h with hm | hm | hm
  · right
    have hl := congrArg List.length hm
    rw [List.length_map] at hl
    rw [hl]; decide
  · left
    have hl := congrArg List.length hm
    rw [List.length_map] at hl
    rw [hl]; decide
  · left
    have hl := congrArg List.length hm
    rw [List.length_map] at hl
    rw [hl]; decide

theorem dotspace_upChar_not_letter (c : Char) (h : dotOrJsSpace c = true) :
    upChar c ∉ ['H', 'I', 'G', 'M', 'E', 'D', 'L', 'O', 'W'] := by
  simp only [dotOrJsSpace, isJsSpace, Bool.or_eq_true, decide_eq_true_eq,
    or_assoc] at h
  rcases h with rfl | rfl | rfl | rfl | rfl | rfl | rfl | rfl | rfl | rfl | rfl | rfl | rfl | rfl | rfl | rfl | rfl | rfl | rfl | rfl | rfl | rfl | rfl | rfl | rfl | rfl
  all_goals decide

theorem sevTok_char_not_dotspace {t : List Char} (htok : isSevTok t = true)
    {c : Char} (hc : c ∈ t) : dotOrJsSpace c = false := by
  cases hb : dotOrJsSpace c
  · rfl
  · exfalso
    have hmap : upChar c ∈ t.map upChar := List.mem_map_of_mem upChar hc
    have hmem : upChar c ∈ ['H', 'I', 'G', 'M', 'E', 'D', 'L', 'O', 'W'] := by
      simp only [isSevTok, Bool.or_eq_true, decide_eq_true_eq, or_assoc] at htok
      rcases htok with hm | hm | hm <;> rw [hm] at hmap
      · exact (by decide : ['H', 'I', 'G', 'H'] ⊆ ['H', 'I', 'G', 'M', 'E', 'D', 'L', 'O', 'W']) hmap
      · exact (by decide : ['M', 'E', 'D'] ⊆ ['H', 'I', 'G', 'M', 'E', 'D', 'L', 'O', 'W']) hmap
      · exact (by decide : ['L', 'O', 'W'] ⊆ ['H', 'I', 'G', 'M', 'E', 'D', 'L', 'O', 'W']) hmap
    exact absurd hmem (dotspace_upChar_not_letter c hb)

theorem sevTok_append_contra (xs ys : List Char) {t2 t : List Char}
    (ht2 : isSevTok t2 = true) (ht : isSevTok t = true)
    (he : t2 = xs ++ t ++ ys) (hxs : xs ≠ []) : False := by
  have hlen2 : t2.length = 3 ∨ t2.length = 4 := isSevTok_length ht2
  have hlen : t.length = 3 ∨ t.length = 4 := isSevTok_length ht
  have hlxs : 1 ≤ xs.length := by
    cases xs with
    | nil => exact absurd rfl hxs
    | cons a b => simp
  have hsum : t2.length = xs.length + t.length + ys.length := by
    rw [he]; simp only [List.length_append]
  have hx1 : xs.length = 1 := by omega
  have hy0 : ys.length = 0 := by omega
  obtain ⟨x, rfl⟩ : ∃ x, xs = [x] := by
    cases xs with
    | nil => simp at hx1
    | cons a b =>
      cases b with
      | nil => exact ⟨a, rfl⟩
      | cons u v => simp at hx1
  have hys : ys = [] := List.length_eq_zero.mp hy0
  subst hys
  have he2 : t2 = x :: t := by simpa using he
  have hm2 : t2.map upChar = ['H', 'I', 'G', 'H'] := by
    simp only [isSevTok, Bool.or_eq_true, decide_eq_true_eq, or_assoc] at ht2
    rcases ht2 with hm | hm | hm
    · exact hm
    · exfalso
      have hl := congrArg List.length hm
      rw [List.length_map] at hl
      simp at hl
      omega
    · exfalso
      have hl := congrArg List.length hm
      rw [List.length_map] at hl
      simp at hl
      omega
  rw [he2] at hm2
  simp at hm2
  have htail : t.map upChar = ['I', 'G', 'H'] := hm2.2
  simp only [isSevTok, Bool.or_eq_true, decide_eq_true_eq, or_assoc] at ht
  rcases ht with hm | hm | hm <;> rw [hm] at htail <;> exact absurd htail (by decide)

theorem findSevMatch_append (pre t r : List Char) (htok : isSevTok t = true)
    (hall : r.all dotOrJsSpace = true) :
    findSevMatch (pre ++ t ++ r) = some (pre, t) := by
  induction pre with
  | nil =>
    obtain ⟨c, t', rfl⟩ : ∃ c t', t = c :: t' := by
      cases t with
      | nil => exact absurd rfl (isSevTok_ne_nil htok)
      | cons a b => exact ⟨a, b, rfl⟩
    have hm := sevMatchHere_complete (c :: t') r htok hall
    show findSevMatch (c :: (t' ++ r)) = some ([], c :: t')
    unfold findSevMatch
    rw [show sevMatchHere (c :: (t' ++ r)) = some (c :: t') from hm]
  | cons c pre' ih =>
    show findSevMatch (c :: (pre' ++ t ++ r)) = some (c :: pre', t)
    have hnone : sevMatchHere (c :: (pre' ++ t ++ r)) = none := by
      cases hs : sevMatchHere (c :: (pre' ++ t ++ r)) with
      | none => rfl
      | some t2 =>
        exfalso
        obtain ⟨r2, he2, hall2, htok2⟩ := sevMatchHere_sound _ _ hs
        have he3 : t2 ++ r2 = (c :: pre') ++ (t ++ r) := by
          rw [← he2]; simp
        obtain ⟨c1, ts, rfl⟩ : ∃ c1 ts, t = c1 :: ts := by
          cases t with
          | nil => exact absurd rfl (isSevTok_ne_nil htok)
          | cons a b => exact ⟨a, b, rfl⟩
        rcases List.append_eq_append_iff.mp he3 with ⟨a, ha1, ha2⟩ | ⟨a, ha1, ha2⟩
        · -- the matched token ends inside `c :: pre'`; then the head of `t`
          -- is a letter lying in the all-dot-space remainder `r2`
          have hc1r2 : c1 ∈ r2 := by
            rw [ha2]; simp
          have hds := List.all_eq_true.mp hall2 c1 hc1r2
          rw [sevTok_char_not_dotspace htok (by simp)] at hds
          exact absurd hds (by decide)
        · rcases List.append_eq_append_iff.mp ha2 with ⟨b, hb1, hb2⟩ | ⟨b, hb1, hb2⟩
          · -- matched token = (c :: pre') ++ t ++ b: a severity token strictly
            -- containing another one, impossible
            exact sevTok_append_contra (c :: pre') b htok2 htok
              (by rw [ha1, hb1]; simp) (by simp)
          · cases b with
            | nil =>
              have hta : (c1 :: ts) = a := by simpa using hb1
              exact sevTok_append_contra (c :: pre') [] htok2 htok
                (by rw [ha1, ← hta]; simp) (by simp)
            | cons b1 bs =>
              have hb1r2 : b1 ∈ r2 := by
                rw [hb2]; simp
              have hb1t : b1 ∈ c1 :: ts := by
                rw [hb1]; simp
              have hds := List.all_eq_true.mp hall2 b1 hb1r2
              rw [sevTok_char_not_dotspace htok hb1t] at hds
              exact absurd hds (by decide)
    unfold findSevMatch
    rw [hnone, ih]

theorem findSevMatch_sound : ∀ (cs pre tok : List Char),
    findSevMatch cs = some (pre, tok) →
    ∃ tail, cs = pre ++ tok ++ tail ∧ isSevTok tok = true ∧
      tail.all dotOrJsSpace = true := by
  intro cs
  induction cs with
  | nil => intro pre tok h; simp [findSevMatch] at h
  | cons c rest ih =>
    intro pre tok h
    unfold findSevMatch at h
    cases hs : sevMatchHere (c :: rest) with
    | some t2 =>
      rw [hs] at h
      simp at h
      obtain ⟨rfl, rfl⟩ := h
      obtain ⟨r2, he, hall, htok⟩ := sevMatchHere_sound _ _ hs
      exact ⟨r2, by simpa using he, htok, hall⟩
    | none =>
      rw [hs] at h
      cases hf : findSevMatch rest with
      | none => rw [hf] at h; simp at h
      | some pr =>
        obtain ⟨pre', tok'⟩ := pr
        rw [hf] at h
        simp at h
        obtain ⟨rfl, rfl⟩ := h
        obtain ⟨tail, he, htok, hall⟩ := ih pre' tok' hf
        exact ⟨tail, by rw [he]; simp, htok, hall⟩

/-- Claim C4: for every free-text model output, the parser matches a
trailing HIGH/MED/LOW token case-insensitively at the end of the string
(the token followed only by dots/whitespace), takes its upper-cased form as
the severity, strips the match to produce the speech text (trimmed, with
internal whitespace collapsed to single spaces); when no such token
matches, the severity defaults to MED; and the cited example parses to
speech "STOP. Construction barriers ahead." with severity HIGH. -/
theorem free_text_parser_correct :
    (∀ pre tok tail : List Char, isSevTok tok = true →
      tail.all dotOrJsSpace = true → cleanSpeech pre ≠ "" →
      processHazardAnalysis (String.mk (pre ++ tok ++ tail)) =
        ⟨cleanSpeech pre, String.mk (tok.map upChar)⟩) ∧
    (∀ s : String,
      (¬ ∃ pre tok tail, s.data = pre ++ tok ++ tail ∧ isSevTok tok = true ∧
        tail.all dotOrJsSpace = true) →
      (processHazardAnalysis s).severity = "MED") ∧
    processHazardAnalysis "STOP. Construction barriers ahead. HIGH" =
      ⟨"STOP. Construction barriers ahead.", "HIGH"⟩ := by
  refine ⟨?_, ?_, by decide⟩
  · intro pre tok tail htok hall hne
    have hf : findSevMatch (pre ++ (tok ++ tail)) = some (pre, tok) := by
      have h := findSevMatch_append pre tok tail htok hall
      simpa using h
    simp [processHazardAnalysis, strippedChars, rawSeverity, hf, hne]
  · intro s hno
    cases hf : findSevMatch s.data with
    | some pr =>
      obtain ⟨pre, tok⟩ := pr
      obtain ⟨tail, he, htok, hall⟩ := findSevMatch_sound _ _ _ hf
      exact absurd ⟨pre, tok, tail, he, htok, hall⟩ hno
    | none =>
      by_cases hc : cleanSpeech (strippedChars s) = "" <;>
        simp [processHazardAnalysis, rawSeverity, hf, hc]

/-- Concrete instance of the free-text parser characterisation. -/
theorem free_text_parser_witness :
    processHazardAnalysis "Go HIGH" = ⟨"Go", "HIGH"⟩ :=
  free_text_parser_correct.1 "Go ".data "HIGH".data [] (by decide) (by decide)
    (by decide)

/-- Claim C10: the trailing severity-token match uses no word boundary —
whenever the input's final characters spell HIGH, MED or LOW
case-insensitively, even as the suffix of a longer word, the parser takes
those final characters as the severity token and deletes them, leaving the
truncated stem as the speech text (provided the stem is non-empty). -/
theorem trailing_token_no_boundary :
    ∀ pre tok : List Char, isSevTok tok = true → cleanSpeech pre ≠ "" →
      processHazardAnalysis (String.mk (pre ++ tok)) =
        ⟨cleanSpeech pre, String.mk (tok.map upChar)⟩ := by
  intro pre tok htok hne
  have hf : findSevMatch (String.mk (pre ++ tok)).data = some (pre, tok) := by
    show findSevMatch (pre ++ tok) = some (pre, tok)
    have h := findSevMatch_append pre tok [] htok (by decide)
    simpa using h
  simp [processHazardAnalysis, strippedChars, rawSeverity, hf, hne]

/-- Concrete instance: a name ending in "AHMED" loses its last three
characters to the severity token. -/
theorem trailing_token_no_boundary_witness :
    processHazardAnalysis "Call AHMED" = ⟨"Call AH", "MED"⟩ :=
  trailing_token_no_boundary "Call AH".data "MED".data (by decide) (by decide)

/-! ### Claims about the enrichment merge and the image validators -/

theorem mergeByIndex_spec (rows : List (List DistElem)) :
    ∀ (ps : List Place) (i : Nat) (out : List EnrichedPlace),
      mergeByIndex rows ps i = some out →
      out.length = ps.length ∧
      ∀ j, j < ps.length →
        ∃ p e, ps[j]? = some p ∧
          (rows.head? >>= fun elems => elems[i + j]?) = some e ∧
          out[j]? = some (enrich p e) := by
  intro ps
  induction ps with
  | nil =>
    intro i out h
    simp [mergeByIndex] at h
    subst h
    simp
  | cons p ps ih =>
    intro i out h
    unfold mergeByIndex at h
    cases he : rows.head? >>= fun elems => elems[i]? with
    | none => rw [he] at h; simp at h
    | some e =>
      rw [he] at h
      simp only [Option.map_eq_some'] at h
      obtain ⟨out', hm, rfl⟩ := h
      obtain ⟨hlen, hidx⟩ := ih (i + 1) out' hm
      constructor
      · simp [hlen]
      · intro j hj
        cases j with
        | zero =>
          refine ⟨p, e, by simp, ?_, by simp⟩
          simpa using he
        | succ j' =>
          have hj' : j' < ps.length := by simpa using hj
          obtain ⟨p', e', h1, h2, h3⟩ := hidx j' hj'
          refine ⟨p', e', by simpa using h1, ?_, by simpa using h3⟩
          have harith : i + (j' + 1) = i + 1 + j' := by omega
          rw [harith]
          exact h2

/-- Claim C6: the pipeline truncates the candidate list to its first 4
entries before issuing the one batched distance call (whose destinations
are those candidates' coordinates in order), and merges strictly by index:
on success the output has one entry per truncated candidate, and entry `j`
is candidate `j` annotated with distance-matrix element `j`. -/
theorem enrichment_merge_correct :
    ∀ (ps : List Place) (gateway : List Location → List (List DistElem)),
      (searchPlacesPipeline ps gateway).2 = [(ps.take 4).map (·.location)] ∧
      ∀ out, (searchPlacesPipeline ps gateway).1 = some out →
        out.length = (ps.take 4).length ∧
        ∀ j, j < (ps.take 4).length →
          ∃ p e, (ps.take 4)[j]? = some p ∧
            ((gateway ((ps.take 4).map (·.location))).head? >>=
              fun elems => elems[j]?) = some e ∧
            out[j]? = some (enrich p e) := by
  intro ps gateway
  have ht : truncatePlaces ps = ps.take 4 := by
    unfold truncatePlaces
    split_ifs with h
    · rfl
    · exact (List.take_of_length_le (by omega)).symm
  constructor
  · simp [searchPlacesPipeline, ht]
  · intro out hout
    simp only [searchPlacesPipeline, ht] at hout
    obtain ⟨hlen, hidx⟩ := mergeByIndex_spec _ _ _ _ hout
    refine ⟨hlen, ?_⟩
    intro j hj
    obtain ⟨p, e, h1, h2, h3⟩ := hidx j hj
    exact ⟨p, e, h1, by simpa using h2, h3⟩

/-- Concrete instance: with six candidates exactly the first four are sent,
and candidate 1 — which shares its coordinates with candidate 0 — still
receives distance-matrix element 1. -/
theorem enrichment_merge_correct_witness :
    (searchPlacesPipeline sixCandidates oneRowGateway).2 =
      [(sixCandidates.take 4).map (·.location)] ∧
    (searchPlacesPipeline sixCandidates oneRowGateway).1 = some enrichedFour ∧
    ∃ p e, (sixCandidates.take 4)[1]? = some p ∧
      ((oneRowGateway ((sixCandidates.take 4).map (·.location))).head? >>=
        fun elems => elems[1]?) = some e ∧
      enrichedFour[1]? = some (enrich p e) := by
  have h := enrichment_merge_correct sixCandidates oneRowGateway
  refine ⟨h.1, by decide, ?_⟩
  exact (h.2 enrichedFour (by decide)).2 1 (by decide)

theorem splitOnChar_no_sep {sep : Char} : ∀ cs : List Char, ¬ sep ∈ cs →
    splitOnChar sep cs = [cs] := by
  intro cs
  induction cs with
  | nil => intro h; rfl
  | cons c rest ih =>
    intro h
    simp only [List.mem_cons, not_or] at h
    obtain ⟨h1, h2⟩ := h
    unfold splitOnChar
    rw [if_neg (fun hcc => h1 hcc.symm), ih h2]

theorem splitOnChar_break {sep : Char} : ∀ (xs ys : List Char), ¬ sep ∈ xs →
    splitOnChar sep (xs ++ sep :: ys) = xs :: splitOnChar sep ys := by
  intro xs
  induction xs with
  | nil =>
    intro ys h
    show splitOnChar sep (sep :: ys) = [] :: splitOnChar sep ys
    simp [splitOnChar]
  | cons c xs' ih =>
    intro ys h
    simp only [List.mem_cons, not_or] at h
    obtain ⟨h1, h2⟩ := h
    show splitOnChar sep (c :: (xs' ++ sep :: ys)) = (c :: xs') :: splitOnChar sep ys
    simp only [splitOnChar]
    rw [if_neg (fun hcc => h1 hcc.symm), ih ys h2]

theorem isPrefixOf_append_right (l t : List Char) :
    List.isPrefixOf l (l ++ t) = true := by
  induction l with
  | nil => simp [List.isPrefixOf]
  | cons c l' ih => simp [List.isPrefixOf, ih]

theorem strMk_data (s : String) : String.mk s.data = s := rfl

theorem nodeB64Len_mk (l : List Char) :
    nodeB64Len (String.mk l) =
      (l.filter fun c => (b64Val c).isSome).length * 3 / 4 := rfl

theorem filter_replicate_pos {p : Char → Bool} {a : Char} (h : p a = true) :
    ∀ n, List.filter p (List.replicate n a) = List.replicate n a := by
  intro n
  induction n with
  | zero => rfl
  | succ n ih => simp [List.replicate_succ, List.filter_cons, h, ih]

/-- Claim C8: the TypeScript validator rejects the empty string
(EmptyImage) and any input whose decoded byte length exceeds the 4 MiB
ceiling (ImageTooLarge); the Go parser defaults the format tag to "jpeg"
for an input with no data-URI prefix while decoding the bare payload, and
accepts a well-formed data-URI with its declared format. -/
theorem image_validator_correct :
    validateImageData "" = .error .emptyImage ∧
    (∀ s : String, nodeB64Len s > maxImageSize →
      validateImageData s = .error .imageTooLarge) ∧
    (∀ s : String, ¬ (',' ∈ s.data) →
      processBase64Image s =
        (match goB64Decode s.data with
         | some bytes => .ok (bytes, "jpeg")
         | none => .error .invalidEncoding)) ∧
    (∀ fmt payload : String, ¬ (';' ∈ fmt.data) → ¬ (',' ∈ fmt.data) →
      ¬ (',' ∈ payload.data) →
      processBase64Image ("data:image/" ++ fmt ++ ";base64," ++ payload) =
        (match goB64Decode payload.data with
         | some bytes => .ok (bytes, fmt)
         | none => .error .invalidEncoding)) := by
  refine ⟨by decide, ?_, ?_, ?_⟩
  · intro s h
    have hs : s ≠ "" := by
      intro he
      rw [he] at h
      exact absurd h (by decide)
    unfold validateImageData
    rw [if_neg hs, if_pos h]
  · intro s hnc
    have hsplit : splitOnChar ',' s.data = [s.data] := splitOnChar_no_sep _ hnc
    unfold processBase64Image
    rw [hsplit]
  · intro fmt payload h1 h2 h3
    have hdata : ("data:image/" ++ fmt ++ ";base64," ++ payload).data =
        ("data:image/".data ++ fmt.data ++ ";base64".data) ++ ',' :: payload.data := by
      simp only [String.data_append, List.append_assoc]
      rfl
    have hxs : ¬ (',' ∈ ("data:image/".data ++ fmt.data ++ ";base64".data)) := by
      simp only [List.mem_append, not_or]
      exact ⟨⟨by decide, h2⟩, by decide⟩
    have hsplit1 : splitOnChar ',' ("data:image/" ++ fmt ++ ";base64," ++ payload).data =
        [("data:image/".data ++ fmt.data ++ ";base64".data), payload.data] := by
      rw [hdata, splitOnChar_break _ _ hxs, splitOnChar_no_sep _ h3]
    have hxs2 : ¬ (';' ∈ ("data:image/".data ++ fmt.data)) := by
      simp only [List.mem_append, not_or]
      exact ⟨by decide, h1⟩
    have hmeta : splitOnChar ';' ("data:image/".data ++ fmt.data ++ ";base64".data) =
        [("data:image/".data ++ fmt.data), "base64".data] := by
      rw [show (";base64".data : List Char) = ';' :: "base64".data from by decide,
        splitOnChar_break _ _ hxs2, splitOnChar_no_sep _ (by decide)]
    have hpre : List.isPrefixOf "data:image/".data ("data:image/".data ++ fmt.data) = true :=
      isPrefixOf_append_right _ _
    have hdrop : String.mk (("data:image/".data ++ fmt.data).drop 11) = fmt := by
      rw [show (11 : Nat) = ("data:image/".data).length from by decide, List.drop_left]
    simp only [processBase64Image, hsplit1, hmeta, hpre, hdrop, if_true]

/-- Concrete instances: an oversized all-base64 payload, a bare payload
defaulting to jpeg, and a png data-URI. -/
theorem image_validator_witness :
    validateImageData (String.mk (List.replicate 5592408 'A')) = .error .imageTooLarge ∧
    processBase64Image "aGk=" = .ok ([104, 105], "jpeg") ∧
    processBase64Image "data:image/png;base64,aGk=" = .ok ([104, 105], "png") := by
  refine ⟨?_, ?_, ?_⟩
  · apply image_validator_correct.2.1
    show nodeB64Len (String.mk (List.replicate 5592408 'A')) > maxImageSize
    rw [nodeB64Len_mk, filter_replicate_pos (by decide), List.length_replicate]
    decide
  · have h := image_validator_correct.2.2.1 "aGk=" (by decide)
    rw [h]
    decide
  · have h := image_validator_correct.2.2.2 "png" "aGk=" (by decide) (by decide)
      (by decide)
    rw [show ("data:image/" ++ "png" ++ ";base64," ++ "aGk=") =
      "data:image/png;base64,aGk=" from by decide] at h
    rw [h]
    decide
